import Mathlib

/-!
A shallow embedding of the click-ledger and referral-qualification core of
`main.py` (referral-and-click-tracking bot), together with proofs about it.

Modelling conventions:
* SQLite tables become Lean lists of rows, in insertion order (the integer
  AUTOINCREMENT primary keys are the list positions and are omitted).
* `users.user_id INTEGER PRIMARY KEY` becomes an association list keyed by a
  natural number; `ensure_user` only inserts after a lookup miss, so keys stay
  distinct.
* Machine timestamps (`datetime.utcnow().isoformat()`) and the current day
  (`date.today().isoformat()`) are opaque strings passed in as parameters
  `now` and `today`.
* The configured qualification threshold `REFERRAL_CLICKS_PER_DAY`
  (environment variable, default 20) is passed as a parameter `thr`.
* The hash values `ip_hash`/`ua_hash` computed by the redirect endpoint
  (sha256 of the forwarded-for address, sha256 of the user agent) arrive at
  `record_click_via_redirect` as opaque strings, exactly as in the code.
* The day-marker file `last_reset.txt` is modelled as an `Option String`
  (absent file = `none`); the code writes the bare day string and strips
  whitespace on read, so the round trip is the identity.
-/

namespace DoorBot

/-- One row of the `users` table (`init_db`, main.py lines 42-52). -/
structure UserRow where
  username : String
  referred_by : Option Nat
  clicks : Nat
  paid_link : Option String
  qualified_referrals : Nat
  created_at : String
  deriving DecidableEq

/-- One row of the `referrals` table (`init_db`, lines 54-62); the
`referee` column carries a UNIQUE constraint. -/
structure ReferralRow where
  referrer : Nat
  referee : Nat
  qualified : Bool
  created_at : String
  deriving DecidableEq

/-- One row of the append-only `clicks` history table (`init_db`,
lines 64-73).  Note the schema declares no UNIQUE constraint on
(user_id, click_date, ip_hash) or any other column combination. -/
structure ClickRow where
  user_id : Nat
  click_date : String
  ip_hash : String
  ua_hash : String
  created_at : String
  deriving DecidableEq

/-- The whole SQLite database: users, referrals, clicks, settings. -/
structure DB where
  users : List (Nat × UserRow)
  referrals : List ReferralRow
  clicks : List ClickRow
  settings : List (String × String)
  deriving DecidableEq

/-- The empty database produced by `init_db` on a fresh file. -/
def DB.empty : DB := ⟨[], [], [], []⟩

/-- `SELECT ... FROM users WHERE user_id=?` followed by `fetchone`. -/
def findUser (db : DB) (uid : Nat) : Option UserRow :=
  (db.users.find? (fun p => p.1 = uid)).map (fun p => p.2)

/-- `UPDATE users SET ... WHERE user_id=?`: rewrite every row whose key
matches (a no-op when the user id has no row). -/
def updateUser (db : DB) (uid : Nat) (f : UserRow → UserRow) : DB :=
  { db with users := db.users.map (fun p => if p.1 = uid then (p.1, f p.2) else p) }

/-- Python truthiness of the `referred_by` argument (`if referred_by:`):
`None` and `0` are falsy. -/
def truthyRef : Option Nat → Bool
  | none => false
  | some r => decide (r ≠ 0)

/-- Python truthiness of the `username` argument (`if username:`):
`None` and the empty string are falsy. -/
def truthyName : Option String → Bool
  | none => false
  | some s => decide (s ≠ "")

/-- `ensure_user(user_id, username, referred_by)` (main.py lines 124-141).

If the user id has no row: insert a fresh users row (clicks 0, no paid
link, 0 qualified referrals, `username or ""`, the raw `referred_by`),
and, when `referred_by` is truthy, try to insert a referral edge; the
bare `except: pass` swallows exactly the UNIQUE(referee) violation, i.e.
the insert is skipped when some edge with this referee already exists.
If the user id already has a row: update its username when the argument
is truthy, and nothing else. -/
def ensure_user (db : DB) (user_id : Nat) (username : Option String)
    (referred_by : Option Nat) (now : String) : DB :=
  match findUser db user_id with
  | none =>
      let row : UserRow :=
        { username := username.getD "", referred_by := referred_by, clicks := 0,
          paid_link := none, qualified_referrals := 0, created_at := now }
      let db1 : DB := { db with users := db.users ++ [(user_id, row)] }
      match referred_by with
      | some r =>
          if r ≠ 0 then
            if db1.referrals.any (fun e => e.referee = user_id) then db1
            else { db1 with referrals :=
                     db1.referrals ++ [{ referrer := r, referee := user_id,
                                         qualified := false, created_at := now }] }
          else db1
      | none => db1
  | some _ =>
      match username with
      | some un => if un ≠ "" then updateUser db user_id (fun u => { u with username := un }) else db
      | none => db

/-- The WHERE clause of the duplicate check: same user, same day, same
`ip_hash` — the `ua_hash` column is not part of the query. -/
def clickMatches (uid : Nat) (today iph : String) (r : ClickRow) : Bool :=
  r.user_id = uid && r.click_date = today && r.ip_hash = iph

/-- `SELECT 1 FROM clicks WHERE user_id=? AND click_date=? AND ip_hash=?`
followed by `fetchone` (main.py line 156): true iff a matching row exists. -/
def checkDup (db : DB) (uid : Nat) (today iph : String) : Bool :=
  db.clicks.any (clickMatches uid today iph)

/-- `SELECT COUNT(*) FROM clicks WHERE user_id=?` (main.py line 173):
the ALL-TIME click-row count of a user. -/
def countClicks (db : DB) (uid : Nat) : Nat :=
  (db.clicks.filter (fun r => r.user_id = uid)).length

/-- The `INSERT INTO clicks(...)` of main.py line 160. -/
def insertClick (db : DB) (uid : Nat) (today iph uah now : String) : DB :=
  { db with clicks :=
    db.clicks ++ [{ user_id := uid, click_date := today, ip_hash := iph,
                    ua_hash := uah, created_at := now }] }

/-- The `UPDATE users SET clicks = clicks + 1 WHERE user_id=?` of line 163. -/
def bumpClicks (db : DB) (uid : Nat) : DB :=
  updateUser db uid (fun u => { u with clicks := u.clicks + 1 })

/-- Lines 177-178: `UPDATE referrals SET qualified=1 WHERE referee=?` and
`UPDATE users SET qualified_referrals = qualified_referrals + 1 WHERE
user_id=?` (the referrer). -/
def creditStep (db : DB) (uid referrer : Nat) : DB :=
  updateUser
    { db with referrals :=
        db.referrals.map (fun r => if r.referee = uid then { r with qualified := true } else r) }
    referrer
    (fun u => { u with qualified_referrals := u.qualified_referrals + 1 })

/-- The referral-qualification step of lines 166-179: look up the edge by
referee; when present, unqualified, and the ALL-TIME click count is at
least `thr`, run `creditStep`; otherwise do nothing. -/
def qualifyStep (thr : Nat) (db : DB) (uid : Nat) : DB :=
  match db.referrals.find? (fun e => e.referee = uid) with
  | none => db
  | some e =>
      if e.qualified then db
      else
        if countClicks db uid ≥ thr then creditStep db uid e.referrer
        else db

/-- The write half of `record_click_via_redirect` (lines 160-179), run
after the duplicate check came back empty: insert the clicks row,
increment the user's aggregate counter, then the qualification step. -/
def applyClick (thr : Nat) (db : DB) (uid : Nat) (today iph uah now : String) : DB :=
  qualifyStep thr (bumpClicks (insertClick db uid today iph uah now) uid) uid

/-- `record_click_via_redirect(user_id, ip_hash, ua_hash)` (main.py lines
149-181): duplicate check on (user, day, ip_hash), then on a miss the
insert / counter increment / qualification step.  Returns the new
database and the recorded/duplicate flag (`True`/`False`). -/
def record_click_via_redirect (thr : Nat) (db : DB) (uid : Nat)
    (today iph uah now : String) : DB × Bool :=
  if checkDup db uid today iph then (db, false)
  else (applyClick thr db uid today iph uah now, true)

/-- `daily_reset()` (main.py lines 184-189): `UPDATE users SET clicks = 0`,
touching no other table and no other column. -/
def daily_reset (db : DB) : DB :=
  { db with users := db.users.map (fun p => (p.1, { p.2 with clicks := 0 })) }

/-- `check_and_do_daily_reset()` (main.py lines 191-203) with the marker
file `last_reset.txt` made explicit: absent marker → write today's day,
no reset; marker equal to today → nothing; marker different → run
`daily_reset`, then write today's day. -/
def check_and_do_daily_reset (today : String) (marker : Option String) (db : DB) :
    Option String × DB :=
  match marker with
  | none => (some today, db)
  | some last =>
      if last ≠ today then (some today, daily_reset db)
      else (some last, db)

/-- `set_setting(key, val)` (main.py lines 99-102): `INSERT OR REPLACE`
into the settings table, keyed on `k`. -/
def set_setting (db : DB) (k v : String) : DB :=
  { db with settings := (db.settings.filter (fun p => p.1 ≠ k)) ++ [(k, v)] }

/-! ### The ShrinkMe call (main.py lines 105-121)

`shrinkme_shorten` begins with `if not SHRINK_API_KEY:`.  Python resolves
the name `SHRINK_API_KEY` at call time against the module's global
namespace; the configuration section of main.py assigns `SHRINK_LINK`
(line 20) but never `SHRINK_API_KEY`, and no other statement in the file
assigns it either.  We model name resolution explicitly: evaluating an
unbound global raises `NameError`, and that line sits *before* the
`try:` block, so the error propagates to the caller. -/

/-- Names bound at module level in main.py: the config assignments
(lines 17-22, 31-32), the objects built at import (lines 28-29), the
imported modules/symbols, and every `def` in the file. -/
def moduleGlobals : List String :=
  ["TELEGRAM_TOKEN", "ADMIN_IDS", "DOMAIN", "SHRINK_LINK",
   "REFERRAL_CLICKS_PER_DAY", "DAILY_REPORT_HOUR", "app", "application",
   "DB_PATH", "LAST_RESET_FILE",
   "os", "logging", "sqlite3", "requests", "hashlib",
   "datetime", "date", "timedelta", "Flask", "request", "abort",
   "Update", "InlineKeyboardButton", "InlineKeyboardMarkup",
   "ApplicationBuilder", "CommandHandler", "CallbackQueryHandler",
   "ContextTypes",
   "db_conn", "init_db", "today_str", "fingerprint", "get_setting",
   "set_setting", "shrinkme_shorten", "ensure_user", "get_user",
   "record_click_via_redirect", "daily_reset", "check_and_do_daily_reset",
   "cmd_start", "cmd_setshrinkme", "cmd_qualified_today",
   "cmd_referral_leaderboard", "callback_handler", "redirect_endpoint",
   "webhook", "register_handlers"]

/-- An uncaught Python exception escaping a modelled function. -/
inductive PyError where
  | nameError (missing : String)
  deriving DecidableEq

/-- Resolve a global name: unbound names raise `NameError`. -/
def lookupGlobal (n : String) : Except PyError Unit :=
  if moduleGlobals.contains n then Except.ok () else Except.error (PyError.nameError n)

/-- The possible outcomes of `requests.get(api, timeout=10)` followed by
`.json()` inside the `try:` block: the request or the JSON decode raises
(timeout, network failure, bad body), or it yields a dict (of which only
the three probed keys matter), a string, or some other JSON value. -/
inductive ShrinkResponse where
  | raisesExc
  | jsonDict (shortenedUrl shortUrl shortenedurl : Option String)
  | jsonStr (s : String)
  | jsonOther
  deriving DecidableEq

/-- Python `x or y` on the string-or-None results of `dict.get`: `None`
and the empty string are falsy and fall through to the right operand. -/
def pyOrStr (a b : Option String) : Option String :=
  match a with
  | some s => if s ≠ "" then some s else b
  | none => b

/-- `shrinkme_shorten(long_url)` (main.py lines 105-121).  The very first
statement reads the global `SHRINK_API_KEY`, outside the `try:` block;
the rest of the body (modelled anyway, for completeness) is the guarded
request with the `except` clause returning `None`. -/
def shrinkme_shorten (_long_url : String) (resp : ShrinkResponse) :
    Except PyError (Option String) := do
  let _ ← lookupGlobal "SHRINK_API_KEY"
  match resp with
  | ShrinkResponse.raisesExc => pure none
  | ShrinkResponse.jsonDict a b c => pure (pyOrStr a (pyOrStr b c))
  | ShrinkResponse.jsonStr s => pure (if s.startsWith "http" then some s else none)
  | ShrinkResponse.jsonOther => pure none

/-! ### The system as a transition relation

A system state is the day-marker file plus the database, together with
one history (ghost) field: `baseline u` records how many click rows user
`u` had at the moment of the last daily reset (0 before any reset).  It
lets "clicks recorded since the last reset" be written as
`countClicks db u - baseline u`.  The ghost is written only by the reset
branch and read by no operation. -/

structure Sys where
  marker : Option String
  db : DB
  baseline : Nat → Nat

/-- The initial state: no marker file, freshly initialised database. -/
def initSys : Sys := { marker := none, db := DB.empty, baseline := fun _ => 0 }

/-- `check_and_do_daily_reset` acting on a full state, updating the ghost
baseline exactly when the reset branch runs. -/
def resetStep (today : String) (s : Sys) : Sys :=
  match s.marker with
  | none => { s with marker := some today }
  | some last =>
      if last ≠ today then
        { marker := some today, db := daily_reset s.db,
          baseline := fun u => countClicks s.db u }
      else s

/-- One atomic store operation of main.py, as fired by the HTTP and chat
entry points.  `tick` is the lazy reset check (run by the webhook, the
callback handler and the redirect endpoint); `ensure` is `ensure_user`
(chat `/start` and the redirect endpoint); `click` is
`record_click_via_redirect` — the redirect endpoint always runs
`ensure_user(uid)` immediately before it and users are never deleted, so
the user row exists, which the hypothesis records (spec §4.1
precondition); `setPaid` is the paid-link cache write of the `getlink`
button; `putSetting` is the admin settings write. -/
inductive Step (thr : Nat) : Sys → Sys → Prop where
  | tick (s : Sys) (today : String) : Step thr s (resetStep today s)
  | ensure (s : Sys) (uid : Nat) (uname : Option String) (ref : Option Nat) (now : String) :
      Step thr s { s with db := ensure_user s.db uid uname ref now }
  | click (s : Sys) (uid : Nat) (today iph uah now : String)
      (h : (findUser s.db uid).isSome) :
      Step thr s { s with db := (record_click_via_redirect thr s.db uid today iph uah now).1 }
  | setPaid (s : Sys) (uid : Nat) (link : String) :
      Step thr s { s with db := updateUser s.db uid (fun u => { u with paid_link := some link }) }
  | putSetting (s : Sys) (k v : String) :
      Step thr s { s with db := set_setting s.db k v }

/-- States reachable from the fresh deployment through the operations of
main.py. -/
inductive Reachable (thr : Nat) : Sys → Prop where
  | init : Reachable thr initSys
  | step {s s' : Sys} : Reachable thr s → Step thr s s' → Reachable thr s'

/-- The ledger invariant: for every user row, baseline + visible counter
equals the all-time click-row count (so the counter is exactly the rows
recorded since the last reset), and a user id without a row has no click
rows and zero baseline. -/
def InvDB (db : DB) (base : Nat → Nat) : Prop :=
  (∀ p ∈ db.users, base p.1 + p.2.clicks = countClicks db p.1) ∧
  (∀ u : Nat, findUser db u = none → countClicks db u = 0 ∧ base u = 0)

def Inv (s : Sys) : Prop := InvDB s.db s.baseline

/-! ### Derived queries and relational predicates -/

/-- `SELECT referrer, qualified FROM referrals WHERE referee=?` followed
by `fetchone` (main.py line 167): the first edge with this referee. -/
def findReferral (db : DB) (v : Nat) : Option ReferralRow :=
  db.referrals.find? (fun e => e.referee = v)

/-- How many click rows match the dedup key (user, day, ip_hash). -/
def dupCount (db : DB) (uid : Nat) (today iph : String) : Nat :=
  (db.clicks.filter (clickMatches uid today iph)).length

/-- `EdgeCreditOk db db'` relates a database to its successor after one
store operation: every referral edge survives with its endpoints intact
and a monotone `qualified` flag; a false→true flip of an edge is
accompanied by exactly one increment of its referrer's
`qualified_referrals` counter whenever the referrer has a users row; and
a user's counter never moves unless one of their edges flipped in this
very operation. -/
def EdgeCreditOk (db db' : DB) : Prop :=
  (∀ v e, findReferral db v = some e →
     ∃ e', findReferral db' v = some e' ∧ e'.referrer = e.referrer
       ∧ e'.referee = e.referee ∧ (e.qualified = true → e'.qualified = true))
  ∧ (∀ v e e', findReferral db v = some e → findReferral db' v = some e' →
      e.qualified = false → e'.qualified = true →
      ∀ rr, findUser db e.referrer = some rr →
        ∃ rr', findUser db' e.referrer = some rr'
          ∧ rr'.qualified_referrals = rr.qualified_referrals + 1)
  ∧ (∀ u rr rr', findUser db u = some rr → findUser db' u = some rr' →
      (∀ v e e', findReferral db v = some e → findReferral db' v = some e' →
         e.referrer = u → (e.qualified = true ∨ e'.qualified = false)) →
      rr'.qualified_referrals = rr.qualified_referrals)

/-! ### Concrete databases used to instantiate the theorems -/

/-- A store holding just user 1, created by a redirect hit with no
referral payload. -/
def demoDB : DB := ensure_user DB.empty 1 none none "t0"

/-- A store holding user 1 (referred by 99, so a referral edge 99→1
exists) and user 99. -/
def demoRefDB : DB :=
  ensure_user (ensure_user DB.empty 1 none (some 99) "t0") 99 none none "t1"

/-- A state wrapping `demoRefDB`, before any reset. -/
def demoRefSys : Sys := { marker := none, db := demoRefDB, baseline := fun _ => 0 }

/-- A store with one user holding 5 visible clicks and one historical
click row. -/
def demoResetDB : DB :=
  { users := [(1, { username := "u", referred_by := none, clicks := 5,
                    paid_link := none, qualified_referrals := 0, created_at := "t" })],
    referrals := [],
    clicks := [{ user_id := 1, click_date := "2024-01-01", ip_hash := "ip",
                 ua_hash := "ua", created_at := "t" }],
    settings := [] }

/-! ### Basic lemmas about the store operations -/

/-- Sanity: forgetting the ghost, `resetStep` is exactly
`check_and_do_daily_reset`. -/
theorem resetStep_models_check (today : String) (s : Sys) :
    ((resetStep today s).marker, (resetStep today s).db)
      = check_and_do_daily_reset today s.marker s.db := by
  unfold resetStep check_and_do_daily_reset
  cases h : s.marker with
  | none => rfl
  | some last =>
      by_cases hlt : last ≠ today
      · simp [hlt]
      · simp [hlt, h]

theorem updateUser_clicks (db : DB) (uid : Nat) (f : UserRow → UserRow) :
    (updateUser db uid f).clicks = db.clicks := rfl

theorem updateUser_referrals (db : DB) (uid : Nat) (f : UserRow → UserRow) :
    (updateUser db uid f).referrals = db.referrals := rfl

theorem daily_reset_clicks (db : DB) : (daily_reset db).clicks = db.clicks := rfl

theorem daily_reset_referrals (db : DB) : (daily_reset db).referrals = db.referrals := rfl

theorem countClicks_congr {db db' : DB} (h : db'.clicks = db.clicks) (u : Nat) :
    countClicks db' u = countClicks db u := by
  unfold countClicks; rw [h]

theorem countClicks_append (db : DB) (rw : ClickRow) (u : Nat) :
    countClicks { db with clicks := db.clicks ++ [rw] } u
      = countClicks db u + (if rw.user_id = u then 1 else 0) := by
  unfold countClicks
  by_cases h : rw.user_id = u <;> simp [List.filter_append, h]

theorem findUser_congr {db db' : DB} (h : db'.users = db.users) (u : Nat) :
    findUser db' u = findUser db u := by
  unfold findUser; rw [h]

theorem findUser_updateUser (db : DB) (uid u : Nat) (f : UserRow → UserRow) :
    findUser (updateUser db uid f) u
      = (findUser db u).map (fun r => if u = uid then f r else r) := by
  obtain ⟨us, rs, cs, st⟩ := db
  unfold findUser updateUser
  induction us with
  | nil => rfl
  | cons a t ih =>
      by_cases h1 : a.1 = uid <;> by_cases h2 : a.1 = u <;>
        simp_all [List.find?_cons, h1, h2]

theorem findUser_daily_reset (db : DB) (u : Nat) :
    findUser (daily_reset db) u
      = (findUser db u).map (fun r => { r with clicks := 0 }) := by
  obtain ⟨us, rs, cs, st⟩ := db
  unfold findUser daily_reset
  induction us with
  | nil => rfl
  | cons a t ih =>
      by_cases h2 : a.1 = u <;> simp_all [List.find?_cons, h2]

theorem findUser_eq_none_iff (db : DB) (u : Nat) :
    findUser db u = none ↔ ∀ p ∈ db.users, ¬ p.1 = u := by
  unfold findUser
  rw [Option.map_eq_none']
  rw [List.find?_eq_none]
  simp

theorem findUser_append_of_some {db : DB} {u : Nat} {r : UserRow}
    (h : findUser db u = some r) (x : Nat × UserRow) :
    findUser { db with users := db.users ++ [x] } u = some r := by
  unfold findUser at h ⊢
  obtain ⟨p, hp, hps⟩ := Option.map_eq_some'.mp h
  rw [List.find?_append, hp]
  simp [hps]

theorem findUser_append_self {db : DB} {uid : Nat} (row : UserRow)
    (h : findUser db uid = none) :
    findUser { db with users := db.users ++ [(uid, row)] } uid = some row := by
  unfold findUser at h ⊢
  rw [Option.map_eq_none'] at h
  rw [List.find?_append, h]
  simp

theorem findUser_append_none {db : DB} {u uid : Nat} (row : UserRow)
    (h : findUser db u = none) (hx : ¬ uid = u) :
    findUser { db with users := db.users ++ [(uid, row)] } u = none := by
  unfold findUser at h ⊢
  rw [Option.map_eq_none'] at h ⊢
  rw [List.find?_append, h]
  simp [hx]

theorem dupCount_zero_of_not_checkDup {db : DB} {uid : Nat} {today iph : String}
    (h : checkDup db uid today iph = false) :
    dupCount db uid today iph = 0 := by
  unfold checkDup at h
  unfold dupCount
  rw [List.length_eq_zero, List.filter_eq_nil_iff]
  intro a ha hmatch
  rw [List.any_eq_false] at h
  exact h a ha hmatch

theorem checkDup_append_match {db : DB} {uid : Nat} {today iph : String}
    {rw0 : ClickRow} (h : clickMatches uid today iph rw0 = true) :
    checkDup { db with clicks := db.clicks ++ [rw0] } uid today iph = true := by
  unfold checkDup
  rw [List.any_append]
  simp [List.any_cons, h]

/-! ### Behaviour of the recorder pieces -/

theorem record_click_dup {thr : Nat} {db : DB} {uid : Nat} {today iph uah now : String}
    (hd : checkDup db uid today iph = true) :
    record_click_via_redirect thr db uid today iph uah now = (db, false) := by
  unfold record_click_via_redirect
  rw [if_pos hd]

theorem record_click_not_dup {thr : Nat} {db : DB} {uid : Nat} {today iph uah now : String}
    (hd : checkDup db uid today iph = false) :
    record_click_via_redirect thr db uid today iph uah now
      = (applyClick thr db uid today iph uah now, true) := by
  unfold record_click_via_redirect
  rw [if_neg (by rw [hd]; exact Bool.false_ne_true)]

theorem qualifyStep_clicks (thr : Nat) (db : DB) (uid : Nat) :
    (qualifyStep thr db uid).clicks = db.clicks := by
  unfold qualifyStep creditStep
  split
  · rfl
  · split
    · rfl
    · split <;> rfl

theorem qualifyStep_of_none {thr : Nat} {db : DB} {uid : Nat}
    (h : findReferral db uid = none) : qualifyStep thr db uid = db := by
  unfold qualifyStep
  rw [show db.referrals.find? (fun e => e.referee = uid) = none from h]

theorem qualifyStep_of_qualified {thr : Nat} {db : DB} {uid : Nat} {e : ReferralRow}
    (h : findReferral db uid = some e) (hq : e.qualified = true) :
    qualifyStep thr db uid = db := by
  unfold qualifyStep
  rw [show db.referrals.find? (fun x => x.referee = uid) = some e from h]
  show (if e.qualified = true then db else _) = db
  rw [if_pos hq]

theorem qualifyStep_of_below {thr : Nat} {db : DB} {uid : Nat} {e : ReferralRow}
    (h : findReferral db uid = some e) (hq : e.qualified = false)
    (hc : countClicks db uid < thr) :
    qualifyStep thr db uid = db := by
  unfold qualifyStep
  rw [show db.referrals.find? (fun x => x.referee = uid) = some e from h]
  show (if e.qualified = true then db else if countClicks db uid ≥ thr then _ else db) = db
  rw [hq]
  simp only [Bool.false_eq_true, if_false]
  rw [if_neg (by omega)]

theorem qualifyStep_of_qualifying {thr : Nat} {db : DB} {uid : Nat} {e : ReferralRow}
    (h : findReferral db uid = some e) (hq : e.qualified = false)
    (hc : thr ≤ countClicks db uid) :
    qualifyStep thr db uid = creditStep db uid e.referrer := by
  unfold qualifyStep
  rw [show db.referrals.find? (fun x => x.referee = uid) = some e from h]
  show (if e.qualified = true then db else if countClicks db uid ≥ thr then creditStep db uid e.referrer else db) = creditStep db uid e.referrer
  rw [hq]
  simp only [Bool.false_eq_true, if_false]
  rw [if_pos hc]

theorem find?_referee_map (l : List ReferralRow) (g : ReferralRow → ReferralRow)
    (hg : ∀ r, (g r).referee = r.referee) (v : Nat) :
    (l.map g).find? (fun e => e.referee = v)
      = (l.find? (fun e => e.referee = v)).map g := by
  induction l with
  | nil => rfl
  | cons a t ih =>
      by_cases h : a.referee = v <;> simp [List.find?_cons, hg, h, ih]

theorem creditStep_findUser (db : DB) (uid referrer u : Nat) :
    findUser (creditStep db uid referrer) u
      = (findUser db u).map
          (fun r => if u = referrer then { r with qualified_referrals := r.qualified_referrals + 1 } else r) := by
  unfold creditStep
  rw [findUser_updateUser]
  rfl

theorem creditStep_findReferral (db : DB) (uid referrer v : Nat) :
    findReferral (creditStep db uid referrer) v
      = (findReferral db v).map
          (fun e => if e.referee = uid then { e with qualified := true } else e) := by
  unfold creditStep findReferral
  show (db.referrals.map _).find? _ = _
  rw [find?_referee_map]
  intro r
  split <;> rfl

theorem creditStep_clicks (db : DB) (uid referrer : Nat) :
    (creditStep db uid referrer).clicks = db.clicks := rfl

theorem findUser_bumpInsert (db : DB) (uid : Nat) (today iph uah now : String) (u : Nat) :
    findUser (bumpClicks (insertClick db uid today iph uah now) uid) u
      = (findUser db u).map (fun r => if u = uid then { r with clicks := r.clicks + 1 } else r) := by
  unfold bumpClicks
  rw [findUser_updateUser]
  rfl

theorem findUser_update_qr {db : DB} {uid u : Nat} {r : UserRow}
    (f : UserRow → UserRow)
    (hf : ∀ x, (f x).qualified_referrals = x.qualified_referrals)
    (h : findUser db u = some r) :
    ∃ r', findUser (updateUser db uid f) u = some r'
      ∧ r'.qualified_referrals = r.qualified_referrals := by
  rw [findUser_updateUser, h]
  refine ⟨_, rfl, ?_⟩
  split
  · exact hf r
  · rfl

/-! ### One-shot qualification in lockstep with the referrer's counter -/

theorem lockstep_noop {db db' : DB}
    (href : ∀ v e, findReferral db v = some e → findReferral db' v = some e)
    (husr : ∀ u r, findUser db u = some r →
       ∃ r', findUser db' u = some r' ∧ r'.qualified_referrals = r.qualified_referrals) :
    EdgeCreditOk db db' := by
  refine ⟨?_, ?_, ?_⟩
  · intro v e h
    exact ⟨e, href v e h, rfl, rfl, fun hq => hq⟩
  · intro v e e' h h' hq hq' rr _
    rw [href v e h] at h'
    injection h' with h2
    rw [← h2] at hq'
    rw [hq] at hq'
    exact absurd hq' (by decide)
  · intro u rr rr' h h' _
    obtain ⟨r2, hr2, hqr⟩ := husr u rr h
    rw [hr2] at h'
    injection h' with h2
    rw [← h2]
    exact hqr

theorem lockstep_credit {db : DB} {uid : Nat} {today iph uah now : String}
    {e0 : ReferralRow}
    (hfr : findReferral db uid = some e0) (hq : e0.qualified = false) :
    EdgeCreditOk db
      (creditStep (bumpClicks (insertClick db uid today iph uah now) uid) uid e0.referrer) := by
  have hfr0 : db.referrals.find? (fun x => x.referee = uid) = some e0 := hfr
  have hrefee : e0.referee = uid := by
    have := List.find?_some hfr0
    simpa using this
  have hfr' : ∀ v : Nat, findReferral
      (creditStep (bumpClicks (insertClick db uid today iph uah now) uid) uid e0.referrer) v
      = (findReferral db v).map
          (fun x => if x.referee = uid then { x with qualified := true } else x) := by
    intro v
    rw [creditStep_findReferral]
    rfl
  have hfu' : ∀ u : Nat, findUser
      (creditStep (bumpClicks (insertClick db uid today iph uah now) uid) uid e0.referrer) u
      = ((findUser db u).map (fun r => if u = uid then { r with clicks := r.clicks + 1 } else r)).map
          (fun r => if u = e0.referrer then { r with qualified_referrals := r.qualified_referrals + 1 } else r) := by
    intro u
    rw [creditStep_findUser, findUser_bumpInsert]
  refine ⟨?_, ?_, ?_⟩
  · intro v e h
    refine ⟨_, by rw [hfr' v, h]; rfl, ?_, ?_, ?_⟩
    · show (if e.referee = uid then { e with qualified := true } else e).referrer = e.referrer
      split <;> rfl
    · show (if e.referee = uid then { e with qualified := true } else e).referee = e.referee
      split <;> rfl
    · intro hqe
      show (if e.referee = uid then { e with qualified := true } else e).qualified = true
      split
      · rfl
      · exact hqe
  · intro v e e' h h' hqe hqe' rr hrr
    rw [hfr' v, h] at h'
    injection h' with h2
    by_cases hre : e.referee = uid
    · have hv : v = uid := by
        have hev : db.referrals.find? (fun x => x.referee = v) = some e := h
        have h3 := List.find?_some hev
        simp at h3
        rw [← h3, hre]
      rw [hv] at h
      rw [hfr] at h
      injection h with he
      subst he
      have step1 : findUser
          (creditStep (bumpClicks (insertClick db uid today iph uah now) uid) uid e0.referrer)
          e0.referrer
          = some (if e0.referrer = e0.referrer
                  then { (if e0.referrer = uid then { rr with clicks := rr.clicks + 1 } else rr) with
                         qualified_referrals :=
                           (if e0.referrer = uid then { rr with clicks := rr.clicks + 1 } else rr).qualified_referrals + 1 }
                  else (if e0.referrer = uid then { rr with clicks := rr.clicks + 1 } else rr)) := by
        rw [hfu' e0.referrer, hrr]
        rfl
      rw [if_pos rfl] at step1
      refine ⟨_, step1, ?_⟩
      show (if e0.referrer = uid then { rr with clicks := rr.clicks + 1 }
            else rr).qualified_referrals + 1 = rr.qualified_referrals + 1
      split <;> rfl
    · exfalso
      have h2x : (if e.referee = uid then { e with qualified := true } else e) = e' := h2
      rw [if_neg hre] at h2x
      rw [← h2x] at hqe'
      rw [hqe] at hqe'
      exact absurd hqe' (by decide)
  · intro u rr rr' h h' hnf
    have hflip : findReferral
        (creditStep (bumpClicks (insertClick db uid today iph uah now) uid) uid e0.referrer) uid
        = some { e0 with qualified := true } := by
      rw [hfr' uid, hfr]
      simp [hrefee]
    have hne : ¬ e0.referrer = u := by
      intro he
      rcases hnf uid e0 { e0 with qualified := true } hfr hflip he with hc | hc
      · rw [hq] at hc
        exact absurd hc (by decide)
      · have hc2 : true = false := hc
        exact absurd hc2 (by decide)
    rw [hfu' u, h] at h'
    injection h' with h2x
    have h2 : (if u = e0.referrer
               then { (if u = uid then { rr with clicks := rr.clicks + 1 } else rr) with
                      qualified_referrals :=
                        (if u = uid then { rr with clicks := rr.clicks + 1 } else rr).qualified_referrals + 1 }
               else (if u = uid then { rr with clicks := rr.clicks + 1 } else rr)) = rr' := h2x
    rw [← h2]
    rw [if_neg (fun hh => hne (Eq.symm hh))]
    show (if u = uid then { rr with clicks := rr.clicks + 1 } else rr).qualified_referrals
      = rr.qualified_referrals
    split <;> rfl

theorem findReferral_resetStep (today : String) (s : Sys) (v : Nat) :
    findReferral (resetStep today s).db v = findReferral s.db v := by
  unfold resetStep
  split
  · rfl
  · split
    · show findReferral (daily_reset s.db) v = _
      unfold findReferral
      rw [daily_reset_referrals]
    · rfl

theorem findUser_resetStep (today : String) (s : Sys) (u : Nat) (r : UserRow)
    (h : findUser s.db u = some r) :
    ∃ r', findUser (resetStep today s).db u = some r'
      ∧ r'.qualified_referrals = r.qualified_referrals := by
  unfold resetStep
  split
  · exact ⟨r, h, rfl⟩
  · split
    · refine ⟨{ r with clicks := 0 }, ?_, rfl⟩
      show findUser (daily_reset s.db) u = _
      rw [findUser_daily_reset, h]
      rfl
    · exact ⟨r, h, rfl⟩

theorem ensure_user_existing {db : DB} {uid : Nat} {r : UserRow} (un : Option String)
    (rb : Option Nat) (now : String) (h : findUser db uid = some r) :
    ensure_user db uid un rb now
      = match un with
        | some s => if s ≠ "" then updateUser db uid (fun u => { u with username := s }) else db
        | none => db := by
  unfold ensure_user
  rw [h]

theorem findReferral_ensure (db : DB) (uid : Nat) (un : Option String)
    (rb : Option Nat) (now : String) (v : Nat) (e : ReferralRow)
    (h : findReferral db v = some e) :
    findReferral (ensure_user db uid un rb now) v = some e := by
  unfold ensure_user
  cases hfu : findUser db uid with
  | some r =>
      cases un with
      | none => exact h
      | some s =>
          by_cases hs : s ≠ ""
          · show findReferral (if s ≠ "" then _ else _) v = _
            rw [if_pos hs]
            show findReferral (updateUser db uid _) v = _
            unfold findReferral
            rw [updateUser_referrals]
            exact h
          · show findReferral (if s ≠ "" then _ else _) v = _
            rw [if_neg hs]
            exact h
  | none =>
      cases rb with
      | none => exact h
      | some rr =>
          by_cases hrr : rr ≠ 0
          · show findReferral (if rr ≠ 0 then _ else _) v = _
            rw [if_pos hrr]
            split
            · exact h
            · show (db.referrals ++ [_]).find? (fun x => x.referee = v) = some e
              rw [List.find?_append]
              rw [show db.referrals.find? (fun x => x.referee = v) = some e from h]
              rfl
          · show findReferral (if rr ≠ 0 then _ else _) v = _
            rw [if_neg hrr]
            exact h

theorem findUser_ensure_qr (db : DB) (uid : Nat) (un : Option String)
    (rb : Option Nat) (now : String) (u : Nat) (r : UserRow)
    (h : findUser db u = some r) :
    ∃ r', findUser (ensure_user db uid un rb now) u = some r'
      ∧ r'.qualified_referrals = r.qualified_referrals := by
  cases hfu : findUser db uid with
  | some r0 =>
      rw [ensure_user_existing un rb now hfu]
      cases un with
      | none => exact ⟨r, h, rfl⟩
      | some s =>
          show ∃ r', findUser (if s ≠ ""
              then updateUser db uid (fun x => { x with username := s }) else db) u = some r'
            ∧ r'.qualified_referrals = r.qualified_referrals
          by_cases hs : s ≠ ""
          · rw [if_pos hs]
            exact findUser_update_qr _ (fun _ => rfl) h
          · rw [if_neg hs]
            exact ⟨r, h, rfl⟩
  | none =>
      unfold ensure_user
      rw [hfu]
      have hbase : findUser { db with users := db.users ++
          [(uid, { username := un.getD "", referred_by := rb, clicks := 0,
                   paid_link := none, qualified_referrals := 0, created_at := now })] } u
          = some r := findUser_append_of_some h _
      cases rb with
      | none => exact ⟨r, hbase, rfl⟩
      | some rr =>
          by_cases hrr : rr ≠ 0
          · refine ⟨r, ?_, rfl⟩
            show findUser (if rr ≠ 0 then _ else _) u = _
            rw [if_pos hrr]
            split
            · exact hbase
            · exact hbase
          · refine ⟨r, ?_, rfl⟩
            show findUser (if rr ≠ 0 then _ else _) u = _
            rw [if_neg hrr]
            exact hbase

theorem lockstep_record (thr : Nat) (db : DB) (uid : Nat) (today iph uah now : String) :
    EdgeCreditOk db (record_click_via_redirect thr db uid today iph uah now).1 := by
  by_cases hd : checkDup db uid today iph
  · rw [record_click_dup hd]
    exact lockstep_noop (fun v e h => h) (fun u r h => ⟨r, h, rfl⟩)
  · have hd2 : checkDup db uid today iph = false := by
      revert hd
      cases checkDup db uid today iph <;> simp
    rw [record_click_not_dup hd2]
    show EdgeCreditOk db (qualifyStep thr (bumpClicks (insertClick db uid today iph uah now) uid) uid)
    cases hfr : findReferral db uid with
    | none =>
        rw [qualifyStep_of_none (show findReferral
          (bumpClicks (insertClick db uid today iph uah now) uid) uid = none from hfr)]
        exact lockstep_noop (fun v e h => h)
          (fun u r h => findUser_update_qr _ (fun _ => rfl) h)
    | some e0 =>
        have hfr2 : findReferral (bumpClicks (insertClick db uid today iph uah now) uid) uid
            = some e0 := hfr
        by_cases hq : e0.qualified
        · rw [qualifyStep_of_qualified hfr2 hq]
          exact lockstep_noop (fun v e h => h)
            (fun u r h => findUser_update_qr _ (fun _ => rfl) h)
        · have hq2 : e0.qualified = false := by
            revert hq
            cases e0.qualified <;> simp
          by_cases hc : countClicks (bumpClicks (insertClick db uid today iph uah now) uid) uid ≥ thr
          · rw [qualifyStep_of_qualifying hfr2 hq2 hc]
            exact lockstep_credit hfr hq2
          · have hc2 : countClicks (bumpClicks (insertClick db uid today iph uah now) uid) uid < thr := by
              omega
            rw [qualifyStep_of_below hfr2 hq2 hc2]
            exact lockstep_noop (fun v e h => h)
              (fun u r h => findUser_update_qr _ (fun _ => rfl) h)

/-! ### Preservation of the ledger invariant -/

theorem invDB_congr {db db' : DB} {base : Nat → Nat}
    (hu : db'.users = db.users) (hc : db'.clicks = db.clicks)
    (h : InvDB db base) : InvDB db' base := by
  obtain ⟨h1, h2⟩ := h
  constructor
  · intro p hp
    rw [hu] at hp
    rw [countClicks_congr hc]
    exact h1 p hp
  · intro u hnone
    rw [findUser_congr hu] at hnone
    rw [countClicks_congr hc]
    exact h2 u hnone

theorem invDB_updateNoClicks {db : DB} {base : Nat → Nat} {uid : Nat}
    {f : UserRow → UserRow} (hf : ∀ r, (f r).clicks = r.clicks)
    (h : InvDB db base) : InvDB (updateUser db uid f) base := by
  obtain ⟨h1, h2⟩ := h
  constructor
  · intro p hp
    obtain ⟨q, hq, rfl⟩ := List.mem_map.mp hp
    by_cases hqi : q.1 = uid
    · rw [if_pos hqi]
      show base q.1 + (f q.2).clicks = countClicks db q.1
      rw [hf]
      exact h1 q hq
    · rw [if_neg hqi]
      show base q.1 + q.2.clicks = countClicks db q.1
      exact h1 q hq
  · intro u hnone
    rw [findUser_updateUser, Option.map_eq_none'] at hnone
    exact h2 u hnone

theorem invDB_daily_reset {db : DB} {base : Nat → Nat} (h : InvDB db base) :
    InvDB (daily_reset db) (fun u => countClicks db u) := by
  obtain ⟨_, h2⟩ := h
  constructor
  · intro p hp
    obtain ⟨q, hq, rfl⟩ := List.mem_map.mp hp
    show countClicks db q.1 + 0 = countClicks db q.1
    omega
  · intro u hnone
    rw [findUser_daily_reset, Option.map_eq_none'] at hnone
    exact ⟨(h2 u hnone).1, (h2 u hnone).1⟩

theorem invDB_ensure {db : DB} {base : Nat → Nat} {uid : Nat}
    {un : Option String} {rb : Option Nat} {now : String}
    (h : InvDB db base) : InvDB (ensure_user db uid un rb now) base := by
  unfold ensure_user
  cases hfu : findUser db uid with
  | some r =>
      cases un with
      | none => exact h
      | some s =>
          by_cases hs : s ≠ ""
          · show InvDB (if s ≠ "" then _ else _) base
            rw [if_pos hs]
            exact invDB_updateNoClicks (fun _ => rfl) h
          · show InvDB (if s ≠ "" then _ else _) base
            rw [if_neg hs]
            exact h
  | none =>
      obtain ⟨h1, h2⟩ := h
      have hbase : InvDB { db with users := db.users ++
          [(uid, { username := un.getD "", referred_by := rb, clicks := 0,
                   paid_link := none, qualified_referrals := 0, created_at := now })] } base := by
        constructor
        · intro p hp
          rcases List.mem_append.mp hp with hp | hp
          · exact h1 p hp
          · simp only [List.mem_singleton] at hp
            subst hp
            show base uid + 0 = countClicks db uid
            rw [(h2 uid hfu).1, (h2 uid hfu).2]
        · intro u hnone
          rw [findUser_eq_none_iff] at hnone
          have hold : findUser db u = none := by
            rw [findUser_eq_none_iff]
            intro p hp
            exact hnone p (List.mem_append.mpr (Or.inl hp))
          exact h2 u hold
      cases rb with
      | none => exact hbase
      | some rr =>
          by_cases hrr : rr ≠ 0
          · show InvDB (if rr ≠ 0 then _ else _) base
            rw [if_pos hrr]
            split
            · exact hbase
            · exact invDB_congr rfl rfl hbase
          · show InvDB (if rr ≠ 0 then _ else _) base
            rw [if_neg hrr]
            exact hbase

theorem invDB_qualify {thr : Nat} {db : DB} {base : Nat → Nat} {uid : Nat}
    (h : InvDB db base) : InvDB (qualifyStep thr db uid) base := by
  unfold qualifyStep
  split
  · exact h
  · split
    · exact h
    · split
      · exact invDB_updateNoClicks (fun _ => rfl) (invDB_congr rfl rfl h)
      · exact h

theorem invDB_bumpInsert {db : DB} {base : Nat → Nat} {uid : Nat}
    {today iph uah now : String} (h : InvDB db base)
    (hu : (findUser db uid).isSome) :
    InvDB (bumpClicks (insertClick db uid today iph uah now) uid) base := by
  obtain ⟨h1, h2⟩ := h
  have hcc : ∀ u : Nat, countClicks (bumpClicks (insertClick db uid today iph uah now) uid) u
      = countClicks db u + (if uid = u then 1 else 0) := by
    intro u
    show countClicks { db with clicks := db.clicks ++
      [{ user_id := uid, click_date := today, ip_hash := iph,
         ua_hash := uah, created_at := now }] } u = _
    exact countClicks_append db _ u
  constructor
  · intro p hp
    obtain ⟨q, hq, rfl⟩ := List.mem_map.mp hp
    by_cases hqi : q.1 = uid
    · rw [if_pos hqi]
      show base q.1 + (q.2.clicks + 1) = countClicks (bumpClicks (insertClick db uid today iph uah now) uid) q.1
      rw [hcc q.1, if_pos hqi.symm]
      have := h1 q hq
      omega
    · rw [if_neg hqi]
      show base q.1 + q.2.clicks = countClicks (bumpClicks (insertClick db uid today iph uah now) uid) q.1
      rw [hcc q.1, if_neg (fun he => hqi he.symm)]
      have := h1 q hq
      omega
  · intro u hnone
    unfold bumpClicks at hnone
    rw [findUser_updateUser, Option.map_eq_none'] at hnone
    have hnone' : findUser db u = none := hnone
    have hne : ¬ uid = u := by
      intro he
      rw [← he] at hnone'
      rw [hnone'] at hu
      simp at hu
    rw [hcc u, if_neg hne]
    have := h2 u hnone'
    exact ⟨by omega, this.2⟩

theorem invDB_click {thr : Nat} {db : DB} {base : Nat → Nat} {uid : Nat}
    {today iph uah now : String} (h : InvDB db base)
    (hu : (findUser db uid).isSome) :
    InvDB (record_click_via_redirect thr db uid today iph uah now).1 base := by
  unfold record_click_via_redirect
  by_cases hd : checkDup db uid today iph
  · rw [if_pos hd]
    exact h
  · rw [if_neg hd]
    exact invDB_qualify (invDB_bumpInsert h hu)

theorem inv_resetStep {today : String} {s : Sys} (h : Inv s) :
    Inv (resetStep today s) := by
  unfold resetStep
  split
  · exact h
  · split
    · exact invDB_daily_reset h
    · exact h

theorem inv_step {thr : Nat} {s s' : Sys} (hs : Step thr s s') (h : Inv s) :
    Inv s' := by
  cases hs with
  | tick today => exact inv_resetStep h
  | ensure uid uname ref now => exact invDB_ensure h
  | click uid today iph uah now hu => exact invDB_click h hu
  | setPaid uid link => exact invDB_updateNoClicks (fun _ => rfl) h
  | putSetting k v => exact invDB_congr rfl rfl h

theorem inv_of_reachable {thr : Nat} {s : Sys} (h : Reachable thr s) : Inv s := by
  induction h with
  | init =>
      constructor
      · intro p hp
        simp [initSys, DB.empty] at hp
      · intro u _
        exact ⟨rfl, rfl⟩
  | step _ hstep ih => exact inv_step hstep ih

/-! ### Further description lemmas for the recorder -/

theorem findUser_updateUser_ne {db : DB} {uid u : Nat} {f : UserRow → UserRow}
    (h : ¬ u = uid) : findUser (updateUser db uid f) u = findUser db u := by
  rw [findUser_updateUser]
  cases findUser db u with
  | none => rfl
  | some r => simp [h]

theorem ensure_user_existing_some {db : DB} {uid : Nat} {r : UserRow} (s : String)
    (rb : Option Nat) (now : String) (h : findUser db uid = some r) :
    ensure_user db uid (some s) rb now
      = if s ≠ "" then updateUser db uid (fun x => { x with username := s }) else db := by
  rw [ensure_user_existing (some s) rb now h]

theorem ensure_user_existing_none {db : DB} {uid : Nat} {r : UserRow}
    (rb : Option Nat) (now : String) (h : findUser db uid = some r) :
    ensure_user db uid none rb now = db :=
  ensure_user_existing none rb now h

theorem countClicks_bumpInsert (db : DB) (uid : Nat) (today iph uah now : String) (u : Nat) :
    countClicks (bumpClicks (insertClick db uid today iph uah now) uid) u
      = countClicks db u + (if uid = u then 1 else 0) := by
  show countClicks { db with clicks := db.clicks ++
    [{ user_id := uid, click_date := today, ip_hash := iph,
       ua_hash := uah, created_at := now }] } u = _
  exact countClicks_append db _ u

theorem applyClick_clicks (thr : Nat) (db : DB) (uid : Nat) (today iph uah now : String) :
    (applyClick thr db uid today iph uah now).clicks
      = db.clicks ++ [{ user_id := uid, click_date := today, ip_hash := iph,
                        ua_hash := uah, created_at := now }] := by
  unfold applyClick
  rw [qualifyStep_clicks]
  rfl

theorem applyClick_clicks_field {thr : Nat} {db : DB} {uid : Nat}
    {today iph uah now : String} {r : UserRow} (hu : findUser db uid = some r) :
    ∃ r', findUser (applyClick thr db uid today iph uah now) uid = some r'
      ∧ r'.clicks = r.clicks + 1 := by
  have hb : findUser (bumpClicks (insertClick db uid today iph uah now) uid) uid
      = some { r with clicks := r.clicks + 1 } := by
    rw [findUser_bumpInsert, hu]
    show some (if uid = uid then _ else _) = _
    rw [if_pos rfl]
  show ∃ r', findUser (qualifyStep thr (bumpClicks (insertClick db uid today iph uah now) uid) uid) uid
      = some r' ∧ r'.clicks = r.clicks + 1
  cases hfr : findReferral (bumpClicks (insertClick db uid today iph uah now) uid) uid with
  | none =>
      rw [qualifyStep_of_none hfr]
      exact ⟨_, hb, rfl⟩
  | some e0 =>
      by_cases hq : e0.qualified
      · rw [qualifyStep_of_qualified hfr hq]
        exact ⟨_, hb, rfl⟩
      · have hq2 : e0.qualified = false := by
          revert hq
          cases e0.qualified <;> simp
        by_cases hc : countClicks (bumpClicks (insertClick db uid today iph uah now) uid) uid ≥ thr
        · rw [qualifyStep_of_qualifying hfr hq2 hc]
          rw [creditStep_findUser, hb]
          refine ⟨_, rfl, ?_⟩
          show (if uid = e0.referrer
                then { ({ r with clicks := r.clicks + 1 } : UserRow) with
                       qualified_referrals :=
                         ({ r with clicks := r.clicks + 1 } : UserRow).qualified_referrals + 1 }
                else { r with clicks := r.clicks + 1 }).clicks = r.clicks + 1
          split <;> rfl
        · have hc2 : countClicks (bumpClicks (insertClick db uid today iph uah now) uid) uid < thr := by
            omega
          rw [qualifyStep_of_below hfr hq2 hc2]
          exact ⟨_, hb, rfl⟩

theorem checkDup_applyClick (thr : Nat) (db : DB) (uid : Nat) (today iph uah now : String) :
    checkDup (applyClick thr db uid today iph uah now) uid today iph = true := by
  unfold checkDup
  rw [applyClick_clicks, List.any_append]
  have h : clickMatches uid today iph
      { user_id := uid, click_date := today, ip_hash := iph,
        ua_hash := uah, created_at := now } = true := by
    simp [clickMatches]
  simp [h]

theorem dupCount_applyClick {thr : Nat} {db : DB} {uid : Nat} {today iph uah now : String}
    (hd : checkDup db uid today iph = false) :
    dupCount (applyClick thr db uid today iph uah now) uid today iph = 1 := by
  unfold dupCount
  rw [applyClick_clicks, List.filter_append]
  have h0 : db.clicks.filter (clickMatches uid today iph) = [] := by
    have h1 := dupCount_zero_of_not_checkDup hd
    unfold dupCount at h1
    exact List.length_eq_zero.mp h1
  rw [h0]
  simp [clickMatches]

/-! ## Claim theorems -/

/-- C9: the spec claims the link-shortening call degrades failures to
"no link produced" (None) and never crashes the caller, including when
the API key configuration is absent.  The code cannot do this: the first
statement of `shrinkme_shorten` reads the global `SHRINK_API_KEY`, which
is bound nowhere in main.py (the config section binds `SHRINK_LINK`
instead), and that read sits before the `try:` block — so every call, for
every URL and every upstream outcome, raises `NameError` that propagates
to the caller.  This contradicts both the claim and the function's own
docstring ("Return ShrinkMe monetized link or None"), so the code is the
bug. -/
theorem c9_shrinkme_always_raises (url : String) (resp : ShrinkResponse) :
    shrinkme_shorten url resp = Except.error (PyError.nameError "SHRINK_API_KEY") := by
  have h : moduleGlobals.contains "SHRINK_API_KEY" = false := by decide
  unfold shrinkme_shorten lookupGlobal
  rw [h]
  rfl

/-- C7: the claim says a self-referral (referrer id equal to the referee's
own id) is rejected and no edge with referrer = referee is ever created.
`ensure_user` has no such check — `if referred_by:` only tests truthiness —
so a first contact carrying the user's own id as the referral payload
creates the edge (5,5).  The referee-uniqueness half of the claim does
hold (UNIQUE constraint, swallowed insert error), but the self-referral
half fails; the spec's testable property is the evident intent, so this
is a code bug, demonstrated here at the failing input. -/
theorem c7_self_referral_edge_created :
    (ensure_user DB.empty 5 none (some 5) "t0").referrals
      = [{ referrer := 5, referee := 5, qualified := false, created_at := "t0" }]
    ∧ findUser (ensure_user DB.empty 5 none (some 5) "t0") 5
      = some { username := "", referred_by := some 5, clicks := 0, paid_link := none,
               qualified_referrals := 0, created_at := "t0" } := by
  decide

/-- C8: the claim says the check-then-insert is serialized per
(user, day, fingerprint) by a store-enforced unique constraint, with the
insert failing on conflict.  In the code the `clicks` table has no such
constraint (`init_db` declares only an autoincrement primary key) and
`record_click_via_redirect` is literally a separate read (`checkDup`)
followed by an unconditional write (`applyClick`) — the second conjunct
below is its definition.  Interleaving two identical concurrent calls so
that both reads run before either write makes both calls insert: the
final store has 2 rows for the same (user, day, ip_hash) and the counter
advanced by 2, exactly the race the spec requires to be impossible. -/
theorem c8_interleaved_both_record :
    checkDup demoDB 1 "d" "ip" = false
    ∧ record_click_via_redirect 20 demoDB 1 "d" "ip" "ua" "t1"
        = (applyClick 20 demoDB 1 "d" "ip" "ua" "t1", true)
    ∧ dupCount (applyClick 20 (applyClick 20 demoDB 1 "d" "ip" "ua" "t1") 1 "d" "ip" "ua" "t2")
        1 "d" "ip" = 2
    ∧ findUser (applyClick 20 (applyClick 20 demoDB 1 "d" "ip" "ua" "t1") 1 "d" "ip" "ua" "t2") 1
        = some { username := "", referred_by := none, clicks := 2, paid_link := none,
                 qualified_referrals := 0, created_at := "t0" } := by
  decide

/-- C5: the daily reset check behaves by cases on the persisted marker:
absent → initialize to the current day, no reset; equal → no change;
different → zero every user's aggregate counter and advance the marker;
and in every case the historical clicks table is untouched. -/
theorem c5_daily_reset_check (today : String) (db : DB) :
    (check_and_do_daily_reset today none db = (some today, db))
    ∧ (check_and_do_daily_reset today (some today) db = (some today, db))
    ∧ (∀ last, last ≠ today →
         check_and_do_daily_reset today (some last) db = (some today, daily_reset db)
         ∧ ∀ p ∈ (daily_reset db).users, p.2.clicks = 0)
    ∧ (∀ marker, (check_and_do_daily_reset today marker db).2.clicks = db.clicks) := by
  refine ⟨rfl, ?_, ?_, ?_⟩
  · show (if today ≠ today then _ else _) = _
    rw [if_neg (by simp)]
  · intro last hl
    constructor
    · show (if last ≠ today then _ else _) = _
      rw [if_pos hl]
    · intro p hp
      obtain ⟨q, hq, rfl⟩ := List.mem_map.mp hp
      rfl
  · intro marker
    cases marker with
    | none => rfl
    | some last =>
        by_cases hl : last ≠ today
        · show ((if last ≠ today then (some today, daily_reset db)
                 else (some last, db)) : Option String × DB).2.clicks = db.clicks
          rw [if_pos hl]
          rfl
        · show ((if last ≠ today then (some today, daily_reset db)
                 else (some last, db)) : Option String × DB).2.clicks = db.clicks
          rw [if_neg hl]

/-- Witness for C5 at a concrete store and a marker one day behind. -/
theorem c5_daily_reset_check_witness :
    ("2024-01-01" : String) ≠ "2024-01-02"
    ∧ check_and_do_daily_reset "2024-01-02" (some "2024-01-01") demoResetDB
        = (some "2024-01-02", daily_reset demoResetDB)
    ∧ (check_and_do_daily_reset "2024-01-02" (some "2024-01-01") demoResetDB).2.clicks
        = demoResetDB.clicks := by
  refine ⟨by decide, ?_, ?_⟩
  · exact ((c5_daily_reset_check "2024-01-02" demoResetDB).2.2.1 "2024-01-01" (by decide)).1
  · exact (c5_daily_reset_check "2024-01-02" demoResetDB).2.2.2 (some "2024-01-01")

/-- C10: calling `ensure_user` for a user id that already has a row
changes at most the username: referrals (and all other tables) are
untouched — in particular no edge is created even when a referrer id is
supplied — every other user's row is untouched, and the user's own
referred_by, clicks, paid_link, qualified_referrals and created_at are
preserved. -/
theorem c10_ensure_user_existing_frame (db : DB) (uid : Nat) (un : Option String)
    (rb : Option Nat) (now : String) (r : UserRow) (hu : findUser db uid = some r) :
    (ensure_user db uid un rb now).referrals = db.referrals
    ∧ (ensure_user db uid un rb now).clicks = db.clicks
    ∧ (ensure_user db uid un rb now).settings = db.settings
    ∧ (∀ u, ¬ u = uid → findUser (ensure_user db uid un rb now) u = findUser db u)
    ∧ (∃ r', findUser (ensure_user db uid un rb now) uid = some r'
        ∧ r'.referred_by = r.referred_by ∧ r'.clicks = r.clicks
        ∧ r'.paid_link = r.paid_link ∧ r'.qualified_referrals = r.qualified_referrals
        ∧ r'.created_at = r.created_at) := by
  cases un with
  | none =>
      rw [ensure_user_existing_none rb now hu]
      exact ⟨rfl, rfl, rfl, fun u _ => rfl, r, hu, rfl, rfl, rfl, rfl, rfl⟩
  | some s =>
      rw [ensure_user_existing_some s rb now hu]
      by_cases hs : s ≠ ""
      · rw [if_pos hs]
        refine ⟨rfl, rfl, rfl, fun u hne => findUser_updateUser_ne hne, ?_⟩
        refine ⟨{ r with username := s }, ?_, rfl, rfl, rfl, rfl, rfl⟩
        rw [findUser_updateUser, hu]
        show some (if uid = uid then _ else _) = _
        rw [if_pos rfl]
      · rw [if_neg hs]
        exact ⟨rfl, rfl, rfl, fun u _ => rfl, r, hu, rfl, rfl, rfl, rfl, rfl⟩

/-- Witness for C10: re-ensuring existing user 1 with a new username and
a referrer payload leaves the referrals table empty. -/
theorem c10_ensure_user_existing_frame_witness :
    (ensure_user demoDB 1 (some "alice") (some 42) "t9").referrals = demoDB.referrals
    ∧ (ensure_user demoDB 1 (some "alice") (some 42) "t9").clicks = demoDB.clicks := by
  have h := c10_ensure_user_existing_frame demoDB 1 (some "alice") (some 42) "t9"
    { username := "", referred_by := none, clicks := 0, paid_link := none,
      qualified_referrals := 0, created_at := "t0" } (by decide)
  exact ⟨h.1, h.2.1⟩

/-- C2: the referral-qualification step of the click recorder.  (i) With
no referral edge for the user, the step is a no-op: referrals unchanged
and nobody's qualified-referral counter moves.  (ii) With an already
qualified edge, likewise a no-op — the referrer's counter can never
increase again from this user's clicks.  (iii) When a newly recorded
click (fresh dedup key) brings the user's ALL-TIME click count to at
least the configured threshold and the edge is unqualified, the edge
flips to qualified and the referrer's counter — the referrer having a
users row — increments by exactly 1. -/
theorem c2_record_click_qualification (thr : Nat) (db : DB) (uid : Nat)
    (today iph uah now : String) :
    (findReferral db uid = none →
       (record_click_via_redirect thr db uid today iph uah now).1.referrals = db.referrals
       ∧ (∀ u r r', findUser db u = some r →
            findUser (record_click_via_redirect thr db uid today iph uah now).1 u = some r' →
            r'.qualified_referrals = r.qualified_referrals))
    ∧ (∀ e, findReferral db uid = some e → e.qualified = true →
        (record_click_via_redirect thr db uid today iph uah now).1.referrals = db.referrals
        ∧ (∀ u r r', findUser db u = some r →
             findUser (record_click_via_redirect thr db uid today iph uah now).1 u = some r' →
             r'.qualified_referrals = r.qualified_referrals))
    ∧ (∀ e rr, findReferral db uid = some e → e.qualified = false →
        checkDup db uid today iph = false →
        thr ≤ countClicks db uid + 1 →
        findUser db e.referrer = some rr →
        findReferral (record_click_via_redirect thr db uid today iph uah now).1 uid
            = some { e with qualified := true }
        ∧ (∃ rr', findUser (record_click_via_redirect thr db uid today iph uah now).1 e.referrer
              = some rr'
            ∧ rr'.qualified_referrals = rr.qualified_referrals + 1)) := by
  refine ⟨?_, ?_, ?_⟩
  · intro hfr
    by_cases hd : checkDup db uid today iph
    · rw [record_click_dup hd]
      refine ⟨rfl, fun u r r' h h' => ?_⟩
      rw [h] at h'
      injection h' with h2
      rw [h2]
    · have hd2 : checkDup db uid today iph = false := by
        revert hd
        cases checkDup db uid today iph <;> simp
      rw [record_click_not_dup hd2]
      have hfr2 : findReferral (bumpClicks (insertClick db uid today iph uah now) uid) uid
          = none := hfr
      have happ : applyClick thr db uid today iph uah now
          = bumpClicks (insertClick db uid today iph uah now) uid := by
        show qualifyStep thr (bumpClicks (insertClick db uid today iph uah now) uid) uid = _
        exact qualifyStep_of_none hfr2
      rw [happ]
      refine ⟨rfl, fun u r r' h h' => ?_⟩
      rw [findUser_bumpInsert, h] at h'
      injection h' with h2
      rw [← h2]
      show (if u = uid then { r with clicks := r.clicks + 1 } else r).qualified_referrals
        = r.qualified_referrals
      split <;> rfl
  · intro e hfr hq
    by_cases hd : checkDup db uid today iph
    · rw [record_click_dup hd]
      refine ⟨rfl, fun u r r' h h' => ?_⟩
      rw [h] at h'
      injection h' with h2
      rw [h2]
    · have hd2 : checkDup db uid today iph = false := by
        revert hd
        cases checkDup db uid today iph <;> simp
      rw [record_click_not_dup hd2]
      have hfr2 : findReferral (bumpClicks (insertClick db uid today iph uah now) uid) uid
          = some e := hfr
      have happ : applyClick thr db uid today iph uah now
          = bumpClicks (insertClick db uid today iph uah now) uid := by
        show qualifyStep thr (bumpClicks (insertClick db uid today iph uah now) uid) uid = _
        exact qualifyStep_of_qualified hfr2 hq
      rw [happ]
      refine ⟨rfl, fun u r r' h h' => ?_⟩
      rw [findUser_bumpInsert, h] at h'
      injection h' with h2
      rw [← h2]
      show (if u = uid then { r with clicks := r.clicks + 1 } else r).qualified_referrals
        = r.qualified_referrals
      split <;> rfl
  · intro e rr hfr hq hd hcount hrr
    rw [record_click_not_dup hd]
    have hfr2 : findReferral (bumpClicks (insertClick db uid today iph uah now) uid) uid
        = some e := hfr
    have hge : thr ≤ countClicks (bumpClicks (insertClick db uid today iph uah now) uid) uid := by
      rw [countClicks_bumpInsert db uid today iph uah now uid, if_pos rfl]
      omega
    have happ : applyClick thr db uid today iph uah now
        = creditStep (bumpClicks (insertClick db uid today iph uah now) uid) uid e.referrer := by
      show qualifyStep thr (bumpClicks (insertClick db uid today iph uah now) uid) uid = _
      exact qualifyStep_of_qualifying hfr2 hq hge
    rw [happ]
    have hrefee : e.referee = uid := by
      have hfr0 : db.referrals.find? (fun x => x.referee = uid) = some e := hfr
      have h3 := List.find?_some hfr0
      simpa using h3
    constructor
    · rw [creditStep_findReferral, hfr2]
      show some (if e.referee = uid then { e with qualified := true } else e) = _
      rw [if_pos hrefee]
    · have step1 : findUser
          (creditStep (bumpClicks (insertClick db uid today iph uah now) uid) uid e.referrer)
          e.referrer
          = some (if e.referrer = e.referrer
                  then { (if e.referrer = uid then { rr with clicks := rr.clicks + 1 } else rr) with
                         qualified_referrals :=
                           (if e.referrer = uid then { rr with clicks := rr.clicks + 1 } else rr).qualified_referrals + 1 }
                  else (if e.referrer = uid then { rr with clicks := rr.clicks + 1 } else rr)) := by
        rw [creditStep_findUser, findUser_bumpInsert, hrr]
        rfl
      rw [if_pos rfl] at step1
      refine ⟨_, step1, ?_⟩
      show (if e.referrer = uid then { rr with clicks := rr.clicks + 1 }
            else rr).qualified_referrals + 1 = rr.qualified_referrals + 1
      split <;> rfl

/-- Witness for C2: with threshold 1, the click that takes referee 1 to
one all-time event flips the 99→1 edge and credits user 99 once. -/
theorem c2_record_click_qualification_witness :
    findReferral (record_click_via_redirect 1 demoRefDB 1 "d" "ip" "ua" "t2").1 1
        = some { referrer := 99, referee := 1, qualified := true, created_at := "t0" }
    ∧ (∃ rr', findUser (record_click_via_redirect 1 demoRefDB 1 "d" "ip" "ua" "t2").1 99 = some rr'
        ∧ rr'.qualified_referrals = 0 + 1) := by
  have h := (c2_record_click_qualification 1 demoRefDB 1 "d" "ip" "ua" "t2").2.2
    { referrer := 99, referee := 1, qualified := false, created_at := "t0" }
    { username := "", referred_by := none, clicks := 0, paid_link := none,
      qualified_referrals := 0, created_at := "t1" }
    (by decide) (by decide) (by decide) (by decide) (by decide)
  exact h

/-- C1 counterexample: the claim says the fingerprint is the hashed
combination of origin and user-agent, so two same-day clicks from the
same origin with different user agents would both be recorded.  In the
code the dedup WHERE clause tests only `ip_hash`: after recording
(user 1, day, "iph", "uahA"), a click (user 1, day, "iph", "uahB") is
reported duplicate (False) and the store is left unchanged, although no
stored event has user-agent hash "uahB". -/
theorem c1_counterexample :
    (record_click_via_redirect 20
        (record_click_via_redirect 20 demoDB 1 "2024-01-05" "iph" "uahA" "t1").1
        1 "2024-01-05" "iph" "uahB" "t2").2 = false
    ∧ (record_click_via_redirect 20
        (record_click_via_redirect 20 demoDB 1 "2024-01-05" "iph" "uahA" "t1").1
        1 "2024-01-05" "iph" "uahB" "t2").1
      = (record_click_via_redirect 20 demoDB 1 "2024-01-05" "iph" "uahA" "t1").1
    ∧ (∀ r ∈ (record_click_via_redirect 20 demoDB 1 "2024-01-05" "iph" "uahA" "t1").1.clicks,
        r.ua_hash ≠ "uahB") := by
  decide

/-- C1 (amended): the dedup key is (user id, day, ip_hash) — the
user-agent hash is stored but plays no part in duplicate detection.  For
every call whose (user id, day, ip_hash) has no matching ClickEvent and
whose user has a row, the recorder reports recorded (True), appends
exactly one ClickEvent carrying both hashes, and increments the user's
visible aggregate counter by exactly 1. -/
theorem c1_record_click_fresh_ip (thr : Nat) (db : DB) (uid : Nat)
    (today iph uah now : String) (r : UserRow)
    (hd : checkDup db uid today iph = false)
    (hu : findUser db uid = some r) :
    (record_click_via_redirect thr db uid today iph uah now).2 = true
    ∧ (record_click_via_redirect thr db uid today iph uah now).1.clicks
        = db.clicks ++ [{ user_id := uid, click_date := today, ip_hash := iph,
                          ua_hash := uah, created_at := now }]
    ∧ (∃ r', findUser (record_click_via_redirect thr db uid today iph uah now).1 uid = some r'
        ∧ r'.clicks = r.clicks + 1) := by
  rw [record_click_not_dup hd]
  exact ⟨rfl, applyClick_clicks thr db uid today iph uah now, applyClick_clicks_field hu⟩

/-- Witness for C1 (amended) at a concrete store holding only user 1. -/
theorem c1_record_click_fresh_ip_witness :
    (record_click_via_redirect 20 demoDB 1 "d" "ip" "ua" "t1").2 = true
    ∧ (∃ r', findUser (record_click_via_redirect 20 demoDB 1 "d" "ip" "ua" "t1").1 1 = some r'
        ∧ r'.clicks = 0 + 1) := by
  have h := c1_record_click_fresh_ip 20 demoDB 1 "d" "ip" "ua" "t1"
    { username := "", referred_by := none, clicks := 0, paid_link := none,
      qualified_referrals := 0, created_at := "t0" } (by decide) (by decide)
  exact ⟨h.1, h.2.2⟩

/-- C3: submitting the same (user id, day, fingerprint) triple twice
records exactly once: the first call reports recorded, the second call
returns the duplicate outcome with the ENTIRE store unchanged (the pair
it returns is literally the first call's store with flag False), the
store holds exactly one ClickEvent for the dedup key, and the user's
aggregate counter advanced by exactly 1. -/
theorem c3_duplicate_submission_idempotent (thr : Nat) (db : DB) (uid : Nat)
    (today iph uah now now2 : String) (r : UserRow)
    (hd : checkDup db uid today iph = false)
    (hu : findUser db uid = some r) :
    (record_click_via_redirect thr db uid today iph uah now).2 = true
    ∧ record_click_via_redirect thr (record_click_via_redirect thr db uid today iph uah now).1
        uid today iph uah now2
      = ((record_click_via_redirect thr db uid today iph uah now).1, false)
    ∧ dupCount (record_click_via_redirect thr db uid today iph uah now).1 uid today iph = 1
    ∧ (∃ r', findUser (record_click_via_redirect thr db uid today iph uah now).1 uid = some r'
        ∧ r'.clicks = r.clicks + 1) := by
  rw [record_click_not_dup hd]
  refine ⟨rfl, ?_, ?_, applyClick_clicks_field hu⟩
  · exact record_click_dup (checkDup_applyClick thr db uid today iph uah now)
  · exact dupCount_applyClick hd

/-- C6: in every reachable state of the system (all mutations going
through the recorder, `ensure_user`, the reset check, and the two cache
and settings writes), every user's visible "clicks" aggregate equals the
number of that user's ClickEvent rows recorded since the last daily
reset — `countClicks` minus the ghost `baseline` snapshot taken at the
reset — while the raw row history itself (`countClicks`, which is what
the qualification step compares against the threshold) is never
truncated. -/
theorem c6_clicks_aggregate_invariant {thr : Nat} {s : Sys} (h : Reachable thr s) :
    ∀ uid r, findUser s.db uid = some r →
      s.baseline uid + r.clicks = countClicks s.db uid
      ∧ r.clicks = countClicks s.db uid - s.baseline uid := by
  intro uid r hf
  have hinv : InvDB s.db s.baseline := inv_of_reachable h
  obtain ⟨h1, _⟩ := hinv
  unfold findUser at hf
  obtain ⟨p, hp, hps⟩ := Option.map_eq_some'.mp hf
  have hmem := List.mem_of_find?_eq_some hp
  have hkey := List.find?_some hp
  simp at hkey
  have heq := h1 p hmem
  rw [hkey, hps] at heq
  exact ⟨heq, by omega⟩

/-- Witness for C6: from the fresh deployment, ensure user 1 then record
one click; the aggregate (1) equals the rows since the last reset. -/
theorem c6_clicks_aggregate_invariant_witness :
    initSys.baseline 1 + 1
      = countClicks (record_click_via_redirect 20 (ensure_user initSys.db 1 none none "t0")
          1 "d" "ip" "ua" "t1").1 1 := by
  have hr1 : Reachable 20 { initSys with db := ensure_user initSys.db 1 none none "t0" } :=
    Reachable.step Reachable.init (Step.ensure initSys 1 none none "t0")
  have hr2 := Reachable.step hr1 (Step.click _ 1 "d" "ip" "ua" "t1" (by decide))
  have h := c6_clicks_aggregate_invariant hr2 1
    { username := "", referred_by := none, clicks := 1, paid_link := none,
      qualified_referrals := 0, created_at := "t0" } (by decide)
  exact h.1

/-- C4 counterexample: the claim's parenthetical says the lockstep holds
"including when the referrer has no row in the users table".  It does
not: the credit `UPDATE users SET qualified_referrals = ... WHERE
user_id = referrer` is a silent no-op when the referrer never contacted
the bot.  From the fresh deployment (threshold 20, the default), user 1
arrives referred by 99 (who never gets a row) and records 20 same-day
clicks from 20 distinct origins: the reachable state has the 99→1 edge
marked qualified while user 99 has no row and no user's
qualified-referral counter was ever incremented. -/
theorem c4_counterexample :
    ∃ s : Sys, Reachable 20 s
      ∧ findReferral s.db 1
          = some { referrer := 99, referee := 1, qualified := true, created_at := "t0" }
      ∧ findUser s.db 99 = none
      ∧ (∀ p ∈ s.db.users, p.2.qualified_referrals = 0) := by
  have h0 : Reachable 20 { initSys with db := ensure_user initSys.db 1 none (some 99) "t0" } :=
    Reachable.step Reachable.init (Step.ensure initSys 1 none (some 99) "t0")
  have h1 := Reachable.step h0 (Step.click _ 1 "d" "ip01" "ua" "t" (by decide))
  have h2 := Reachable.step h1 (Step.click _ 1 "d" "ip02" "ua" "t" (by decide))
  have h3 := Reachable.step h2 (Step.click _ 1 "d" "ip03" "ua" "t" (by decide))
  have h4 := Reachable.step h3 (Step.click _ 1 "d" "ip04" "ua" "t" (by decide))
  have h5 := Reachable.step h4 (Step.click _ 1 "d" "ip05" "ua" "t" (by decide))
  have h6 := Reachable.step h5 (Step.click _ 1 "d" "ip06" "ua" "t" (by decide))
  have h7 := Reachable.step h6 (Step.click _ 1 "d" "ip07" "ua" "t" (by decide))
  have h8 := Reachable.step h7 (Step.click _ 1 "d" "ip08" "ua" "t" (by decide))
  have h9 := Reachable.step h8 (Step.click _ 1 "d" "ip09" "ua" "t" (by decide))
  have h10 := Reachable.step h9 (Step.click _ 1 "d" "ip10" "ua" "t" (by decide))
  have h11 := Reachable.step h10 (Step.click _ 1 "d" "ip11" "ua" "t" (by decide))
  have h12 := Reachable.step h11 (Step.click _ 1 "d" "ip12" "ua" "t" (by decide))
  have h13 := Reachable.step h12 (Step.click _ 1 "d" "ip13" "ua" "t" (by decide))
  have h14 := Reachable.step h13 (Step.click _ 1 "d" "ip14" "ua" "t" (by decide))
  have h15 := Reachable.step h14 (Step.click _ 1 "d" "ip15" "ua" "t" (by decide))
  have h16 := Reachable.step h15 (Step.click _ 1 "d" "ip16" "ua" "t" (by decide))
  have h17 := Reachable.step h16 (Step.click _ 1 "d" "ip17" "ua" "t" (by decide))
  have h18 := Reachable.step h17 (Step.click _ 1 "d" "ip18" "ua" "t" (by decide))
  have h19 := Reachable.step h18 (Step.click _ 1 "d" "ip19" "ua" "t" (by decide))
  have h20 := Reachable.step h19 (Step.click _ 1 "d" "ip20" "ua" "t" (by decide))
  exact ⟨_, h20, by decide, by decide, by decide⟩

/-- C4 (amended): over every transition of the system, every referral
edge survives with its endpoints intact and a monotone qualified flag
(so false→true happens at most once per edge); a flip is accompanied by
exactly one increment of the referrer's counter PROVIDED the referrer
has a users row; and a user's counter never moves without one of their
edges flipping in that same operation.  When the referrer has no row,
the flip happens with no counter increment anywhere (see the
counterexample), which is the one part of the original claim that had to
be dropped. -/
theorem c4_qualified_lockstep {thr : Nat} {s s' : Sys} (hstep : Step thr s s') :
    EdgeCreditOk s.db s'.db := by
  cases hstep with
  | tick today =>
      exact lockstep_noop
        (fun v e h => by rw [findReferral_resetStep]; exact h)
        (fun u r h => findUser_resetStep today s u r h)
  | ensure uid uname ref now =>
      exact lockstep_noop
        (fun v e h => findReferral_ensure s.db uid uname ref now v e h)
        (fun u r h => findUser_ensure_qr s.db uid uname ref now u r h)
  | click uid today iph uah now hu =>
      exact lockstep_record thr s.db uid today iph uah now
  | setPaid uid link =>
      exact lockstep_noop
        (fun v e h => h)
        (fun u r h => findUser_update_qr _ (fun _ => rfl) h)
  | putSetting k v =>
      exact lockstep_noop (fun v e h => h) (fun u r h => ⟨r, h, rfl⟩)

/-- Witness for C4 (amended): one qualifying click (threshold 1) on the
99→1 edge with user 99 present increments 99's counter to exactly 1. -/
theorem c4_qualified_lockstep_witness :
    ∃ rr', findUser (record_click_via_redirect 1 demoRefDB 1 "d" "ip" "ua" "t2").1 99 = some rr'
      ∧ rr'.qualified_referrals = 0 + 1 := by
  have h : EdgeCreditOk demoRefSys.db
      (record_click_via_redirect 1 demoRefSys.db 1 "d" "ip" "ua" "t2").1 :=
    c4_qualified_lockstep (Step.click demoRefSys 1 "d" "ip" "ua" "t2" (by decide))
  exact h.2.1 1
    { referrer := 99, referee := 1, qualified := false, created_at := "t0" }
    { referrer := 99, referee := 1, qualified := true, created_at := "t0" }
    (by decide) (by decide) (by decide) (by decide)
    { username := "", referred_by := none, clicks := 0, paid_link := none,
      qualified_referrals := 0, created_at := "t1" }
    (by decide)

/-- Witness for C3 at a concrete store holding only user 1. -/
theorem c3_duplicate_submission_idempotent_witness :
    record_click_via_redirect 20 (record_click_via_redirect 20 demoDB 1 "d2" "ip2" "ua2" "t1").1
        1 "d2" "ip2" "ua2" "t2"
      = ((record_click_via_redirect 20 demoDB 1 "d2" "ip2" "ua2" "t1").1, false)
    ∧ dupCount (record_click_via_redirect 20 demoDB 1 "d2" "ip2" "ua2" "t1").1 1 "d2" "ip2" = 1 := by
  have h := c3_duplicate_submission_idempotent 20 demoDB 1 "d2" "ip2" "ua2" "t1" "t2"
    { username := "", referred_by := none, clicks := 0, paid_link := none,
      qualified_referrals := 0, created_at := "t0" } (by decide) (by decide)
  exact ⟨h.2.1, h.2.2.1⟩

end DoorBot
